import Mathlib

/- Shallow embedding of the core of the multimodal iMessage MCP server
   (src/index.js), together with proofs about its specification.

   Modelling conventions: JS strings are Lean Strings; JS Buffers are lists
   of byte values (Nat, below 256 in every real buffer); JS Maps and Sets
   are association lists and duplicate-free lists kept in insertion order;
   nullable fields are Options.  Byte reads inside the binary decoder are
   performed in an error monad that fails on an out-of-bounds read (in JS
   such a read silently yields undefined); the safety theorem shows that
   the guards in the code keep every read in bounds, so the error case is
   unreachable.  The 32-bit signed semantics of the JS operators << and |
   used on length bytes is modelled explicitly. -/

-- ## JS 32-bit arithmetic (the << and | operators applied to length bytes)

def toUint32 (n : Int) : Nat := (n % (2 ^ 32 : Int)).toNat

def ofUint32 (n : Nat) : Int := if n < 2 ^ 31 then (n : Int) else (n : Int) - 2 ^ 32

def jsShl (a : Int) (k : Nat) : Int := ofUint32 ((toUint32 a <<< (k % 32)) % 2 ^ 32)

def jsOr (a b : Int) : Int := ofUint32 (toUint32 a ||| toUint32 b)

-- ## Generic byte/char sequence search (Buffer.indexOf, String.includes)

def startsWithSeq {α : Type} [BEq α] : List α → List α → Bool
  | _, [] => true
  | [], _ :: _ => false
  | a :: as, b :: bs => a == b && startsWithSeq as bs

def containsSeq {α : Type} [BEq α] : List α → List α → Bool
  | [], pat => startsWithSeq ([] : List α) pat
  | a :: rest, pat => startsWithSeq (a :: rest) pat || containsSeq rest pat

def indexOfSeq {α : Type} [BEq α] (pat : List α) : List α → Option Nat
  | [] => if startsWithSeq ([] : List α) pat then some 0 else none
  | a :: rest =>
    if startsWithSeq (a :: rest) pat then some 0
    else (indexOfSeq pat rest).map (· + 1)

/-- Substring test, modelling the JS String.prototype.includes method:
`strIncludes s sub` is true when `sub` occurs contiguously in `s`. -/
def strIncludes (s sub : String) : Bool := containsSeq s.toList sub.toList

-- ## UTF-8 decoding (Buffer.prototype.toString with encoding utf-8)

def replChar : Char := Char.ofNat 0xFFFD

def contOk (b lo hi : Nat) : Bool := lo ≤ b && b ≤ hi

/-- Fuel-driven WHATWG UTF-8 decoder: each step consumes at least one byte,
emitting U+FFFD on malformed sequences, so fuel = number of bytes suffices. -/
def utf8DecodeAux : Nat → List Nat → List Char
  | 0, _ => []
  | _ + 1, [] => []
  | fuel + 1, b :: rest =>
    if b < 0x80 then Char.ofNat b :: utf8DecodeAux fuel rest
    else if b < 0xC2 then replChar :: utf8DecodeAux fuel rest
    else if b < 0xE0 then
      match rest with
      | [] => [replChar]
      | b1 :: rest1 =>
        if contOk b1 0x80 0xBF then
          Char.ofNat ((b - 0xC0) * 0x40 + (b1 - 0x80)) :: utf8DecodeAux fuel rest1
        else replChar :: utf8DecodeAux fuel rest
    else if b < 0xF0 then
      match rest with
      | [] => [replChar]
      | b1 :: rest1 =>
        if contOk b1 (if b = 0xE0 then 0xA0 else 0x80) (if b = 0xED then 0x9F else 0xBF) then
          match rest1 with
          | [] => [replChar]
          | b2 :: rest2 =>
            if contOk b2 0x80 0xBF then
              Char.ofNat ((b - 0xE0) * 0x1000 + (b1 - 0x80) * 0x40 + (b2 - 0x80)) ::
                utf8DecodeAux fuel rest2
            else replChar :: utf8DecodeAux fuel rest1
        else replChar :: utf8DecodeAux fuel rest
    else if b < 0xF5 then
      match rest with
      | [] => [replChar]
      | b1 :: rest1 =>
        if contOk b1 (if b = 0xF0 then 0x90 else 0x80) (if b = 0xF4 then 0x8F else 0xBF) then
          match rest1 with
          | [] => [replChar]
          | b2 :: rest2 =>
            if contOk b2 0x80 0xBF then
              match rest2 with
              | [] => [replChar]
              | b3 :: rest3 =>
                if contOk b3 0x80 0xBF then
                  Char.ofNat ((b - 0xF0) * 0x40000 + (b1 - 0x80) * 0x1000 +
                    (b2 - 0x80) * 0x40 + (b3 - 0x80)) :: utf8DecodeAux fuel rest3
                else replChar :: utf8DecodeAux fuel rest2
            else replChar :: utf8DecodeAux fuel rest1
        else replChar :: utf8DecodeAux fuel rest
    else replChar :: utf8DecodeAux fuel rest

def utf8Decode (bytes : List Nat) : String := String.mk (utf8DecodeAux bytes.length bytes)

-- ## The binary attributed-body decoder (extractTextFromAttributedBody)

/-- A JS value passed to the decoder: either a Buffer (byte list) or any
non-Buffer value, which the decoder rejects up front via Buffer.isBuffer. -/
inductive JSVal : Type where
  | buffer : List Nat → JSVal
  | nonBuffer : JSVal

/-- Byte values of the 8-byte ASCII marker string that the decoder searches
for (the source builds it with Buffer.from applied to the marker text). -/
def nsStringMarker : List Nat := [0x4e, 0x53, 0x53, 0x74, 0x72, 0x69, 0x6e, 0x67]

/-- Read one byte of a buffer, failing on an out-of-bounds index (in JS
the read would silently yield undefined; the theorems show the guards in
the decoder keep every read in bounds, so this failure never happens). -/
def readByte (buf : List Nat) (pos : Nat) : Except String Nat :=
  match buf[pos]? with
  | some b => Except.ok b
  | none => Except.error "out-of-bounds read"

/-- The while loop of the decoder: starting at pos, advance while below
searchEnd until a 0x2b byte is found; fuel bounds the number of steps and
is instantiated with searchEnd - pos, which makes it exact. -/
def scanLoop (buf : List Nat) (searchEnd : Nat) : Nat → Nat → Except String Nat
  | 0, pos => Except.ok pos
  | fuel + 1, pos =>
    if pos < searchEnd then
      match readByte buf pos with
      | Except.error e => Except.error e
      | Except.ok b => if b == 0x2b then Except.ok pos else scanLoop buf searchEnd fuel (pos + 1)
    else Except.ok pos

/-- Final validation and slice: reject a non-positive length or a length
overrunning the buffer, then decode exactly textLen bytes as UTF-8. -/
def finishDecode (buf : List Nat) (textLen : Int) (pos : Nat) : Except String (Option String) :=
  if textLen ≤ 0 ∨ (buf.length : Int) < (pos : Int) + textLen then Except.ok none
  else Except.ok (some (utf8Decode ((buf.drop pos).take textLen.toNat)))

/-- Continuation helper for a guarded byte read: propagate a read error,
otherwise continue with the byte. -/
def withByte (buf : List Nat) (pos : Nat)
    (k : Nat → Except String (Option String)) : Except String (Option String) :=
  match readByte buf pos with
  | Except.error e => Except.error e
  | Except.ok b => k b

/-- Read the length field starting at pos2 (one byte past the delimiter):
a single byte, or 0x81 plus 2 big-endian bytes, or 0x82 plus 4 big-endian
bytes, the multi-byte forms combined with the JS signed 32-bit << and |. -/
def readTextLen (buf : List Nat) (pos2 : Nat) : Except String (Option String) :=
  if buf.length ≤ pos2 then Except.ok none
  else
    withByte buf pos2 (fun len0 =>
      if len0 = 0x81 ∧ pos2 + 3 ≤ buf.length then
        withByte buf (pos2 + 1) (fun b0 => withByte buf (pos2 + 2) (fun b1 =>
          finishDecode buf (jsOr (jsShl (Int.ofNat b0) 8) (Int.ofNat b1)) (pos2 + 3)))
      else if len0 = 0x82 ∧ pos2 + 5 ≤ buf.length then
        withByte buf (pos2 + 1) (fun b0 => withByte buf (pos2 + 2) (fun b1 =>
          withByte buf (pos2 + 3) (fun b2 => withByte buf (pos2 + 4) (fun b3 =>
            finishDecode buf
              (jsOr (jsOr (jsOr (jsShl (Int.ofNat b0) 24) (jsShl (Int.ofNat b1) 16))
                (jsShl (Int.ofNat b2) 8)) (Int.ofNat b3)) (pos2 + 5)))))
      else finishDecode buf (Int.ofNat len0) (pos2 + 1))

/-- After the scan loop stops at pos1: reject if past the end or not on the
delimiter byte 0x2b, otherwise read the length field one byte further. -/
def afterScan (buf : List Nat) (pos1 : Nat) : Except String (Option String) :=
  if buf.length ≤ pos1 then Except.ok none
  else
    withByte buf pos1 (fun d =>
      if d ≠ 0x2b then Except.ok none else readTextLen buf (pos1 + 1))

/-- The decoder itself: reject non-Buffers, find the marker, scan a bounded
window for the delimiter, read the length field, validate and slice. -/
def extractTextFromAttributedBody : JSVal → Except String (Option String)
  | JSVal.nonBuffer => Except.ok none
  | JSVal.buffer buf =>
    match indexOfSeq nsStringMarker buf with
    | none => Except.ok none
    | some idx =>
      match scanLoop buf (min (idx + nsStringMarker.length + 12) buf.length)
          (min (idx + nsStringMarker.length + 12) buf.length - (idx + nsStringMarker.length))
          (idx + nsStringMarker.length) with
      | Except.error e => Except.error e
      | Except.ok pos1 => afterScan buf pos1

-- ## Message text resolution (getMessageText)

structure MessageRow : Type where
  text : Option String
  attributedBody : Option (List Nat)

/-- JS truthiness of a nullable string: null and the empty string are falsy. -/
def jsTruthyStr : Option String → Bool
  | none => false
  | some s => s ≠ ""

def getMessageText (msg : MessageRow) : Except String (Option String) :=
  if jsTruthyStr msg.text then Except.ok msg.text
  else
    match msg.attributedBody with
    | some buf => extractTextFromAttributedBody (JSVal.buffer buf)
    | none => Except.ok none

-- ## Phone normalization (normalizePhoneNumber)

/-- The source first rejects falsy input (null, or the empty string; the
typeof guard is vacuous for string inputs), strips non-digits, rejects
fewer than 7 digits, strips a leading 1 from an 11-digit number. -/
def normalizePhoneNumber (raw : String) : Option String :=
  if raw = "" then none
  else
    let digits := raw.toList.filter Char.isDigit
    if digits.length < 7 then none
    else if digits.length = 11 ∧ digits.head? = some '1' then some (String.mk digits.tail)
    else some (String.mk digits)

/-- Restatement of the claim wording for the normalizer (strip non-digits;
absent below 7 digits; strip the leading 1 of an 11-digit number; otherwise
the digit string unchanged), with no special case for the empty input. -/
def normalizePhoneClaimed (raw : String) : Option String :=
  let digits := raw.toList.filter Char.isDigit
  if digits.length < 7 then none
  else if digits.length = 11 ∧ digits.head? = some '1' then some (String.mk digits.tail)
  else some (String.mk digits)

-- ## Contact data model and the contact cache builder

structure Contact : Type where
  displayName : String
  firstName : String
  lastName : String
  organization : String
  nickname : String
deriving DecidableEq

/-- One address-book record as returned by the snapshot queries; each field
mirrors a nullable column. -/
structure ABRow : Type where
  firstName : Option String
  lastName : Option String
  organization : Option String
  nickname : Option String

structure PhoneRow : Type where
  row : ABRow
  fullNumber : Option String

structure EmailRow : Type where
  row : ABRow
  address : Option String

/-- One address-book snapshot: the rows produced by the phone query and by
the email query, in query order. -/
structure Snapshot : Type where
  phoneRows : List PhoneRow
  emailRows : List EmailRow

def orEmpty : Option String → String
  | none => ""
  | some s => s

/-- Association-list model of a JS Map: get returns the value at the first
matching key. -/
def mapGet {β : Type} (m : List (String × β)) (k : String) : Option β :=
  (m.find? (fun p => p.1 == k)).map Prod.snd

/-- Map.set: replace the value of an existing key in place, else append. -/
def mapSet {β : Type} : List (String × β) → String → β → List (String × β)
  | [], k, v => [(k, v)]
  | (k1, v1) :: rest, k, v =>
    if k1 == k then (k, v) :: rest else (k1, v1) :: mapSet rest k v

/-- Set.add on the list model of a JS Set (insertion order, no duplicates). -/
def setAdd (s : List String) (x : String) : List String := if x ∈ s then s else s ++ [x]

/-- ASCII lower-casing (the toLowerCase in the source is applied to ASCII
phone digits, emails and names; the core Char.toLower is ASCII-only too),
written over the character list so that it evaluates in the kernel. -/
def jsToLower (s : String) : String := String.mk (s.toList.map Char.toLower)

/-- Whitespace trim at both ends, written over the character list so that
it evaluates in the kernel. -/
def jsTrim (s : String) : String :=
  String.mk (((s.toList.dropWhile Char.isWhitespace).reverse.dropWhile
    Char.isWhitespace).reverse)

/-- Character membership test, modelling the JS includes on a one-char
needle (the source only tests for the at sign). -/
def strContainsChar (s : String) (c : Char) : Bool := s.toList.contains c

def buildDisplayName (row : ABRow) : Option String :=
  let first := jsTrim (orEmpty row.firstName)
  let last := jsTrim (orEmpty row.lastName)
  let org := jsTrim (orEmpty row.organization)
  let nick := jsTrim (orEmpty row.nickname)
  if first ≠ "" ∧ last ≠ "" then some (first ++ " " ++ last)
  else if first ≠ "" then some first
  else if nick ≠ "" then some nick
  else if last ≠ "" then some last
  else if org ≠ "" then some org
  else none

/-- Add one handle id to the set stored under one name token (creating the
set when the token is not yet indexed). -/
def addHandleTo (m : List (String × List String)) (tok hid : String) :
    List (String × List String) :=
  mapSet m tok (setAdd ((mapGet m tok).getD []) hid)

/-- Index the handle under one name token when the token is non-empty
(the repeated truthiness-guarded get-or-create-and-add pattern). -/
def addTokenIf (m : List (String × List String)) (tok hid : String) :
    List (String × List String) :=
  if tok ≠ "" then addHandleTo m tok hid else m

/-- indexContactName: index the handle under the lower-cased display name
and under the trimmed lower-cased first name, nickname and organization
when they are non-empty. -/
def indexContactName (nameToHandles : List (String × List String))
    (displayName hid : String) (row : ABRow) : List (String × List String) :=
  addTokenIf (addTokenIf (addTokenIf
    (addHandleTo nameToHandles (jsToLower displayName) hid)
    (jsToLower (jsTrim (orEmpty row.firstName))) hid)
    (jsToLower (jsTrim (orEmpty row.nickname))) hid)
    (jsToLower (jsTrim (orEmpty row.organization))) hid

structure ContactCache : Type where
  handleToContact : List (String × Contact)
  nameToHandles : List (String × List String)

def mkContact (displayName : String) (row : ABRow) : Contact :=
  ⟨displayName, orEmpty row.firstName, orEmpty row.lastName,
    orEmpty row.organization, orEmpty row.nickname⟩

/-- One iteration of the phone-row loop of buildContactCache: skip when the
number does not normalize or no display name derives, else record the
handle and index the names. -/
def processPhoneRow (acc : ContactCache) (pr : PhoneRow) : ContactCache :=
  match normalizePhoneNumber (orEmpty pr.fullNumber) with
  | none => acc
  | some normalized =>
    match buildDisplayName pr.row with
    | none => acc
    | some displayName =>
      ⟨mapSet acc.handleToContact normalized (mkContact displayName pr.row),
        indexContactName acc.nameToHandles displayName normalized pr.row⟩

/-- One iteration of the email-row loop: skip a falsy (missing or empty)
address or a missing display name, else record lower-cased trimmed address. -/
def processEmailRow (acc : ContactCache) (er : EmailRow) : ContactCache :=
  if orEmpty er.address = "" then acc
  else
    match buildDisplayName er.row with
    | none => acc
    | some displayName =>
      ⟨mapSet acc.handleToContact (jsTrim (jsToLower (orEmpty er.address)))
          (mkContact displayName er.row),
        indexContactName acc.nameToHandles displayName
          (jsTrim (jsToLower (orEmpty er.address))) er.row⟩

def processSnapshot (acc : ContactCache) (snap : Snapshot) : ContactCache :=
  snap.emailRows.foldl processEmailRow (snap.phoneRows.foldl processPhoneRow acc)

def buildContactCache (snaps : List Snapshot) : ContactCache :=
  snaps.foldl processSnapshot ⟨[], []⟩

-- ## Handle and name resolution (resolveHandleToName, resolveNameToHandleIds)

/-- resolveHandleToName over an already-built handleToContact map. -/
def resolveHandleToName (cache : List (String × Contact)) (handleId : String) : String :=
  if handleId = "" then "Unknown"
  else if strContainsChar handleId '@' then
    match mapGet cache (jsTrim (jsToLower handleId)) with
    | some c => c.displayName
    | none => handleId
  else
    match normalizePhoneNumber handleId with
    | some normalized =>
      match mapGet cache normalized with
      | some c => c.displayName
      | none => handleId
    | none => handleId

/-- Restatement of the claim wording for handle resolution (classify by @,
normalize, look up, else return the input verbatim), with no special case
for the empty input. -/
def resolveHandleToNameClaimed (cache : List (String × Contact)) (handleId : String) : String :=
  if strContainsChar handleId '@' then
    match mapGet cache (jsTrim (jsToLower handleId)) with
    | some c => c.displayName
    | none => handleId
  else
    match normalizePhoneNumber handleId with
    | some normalized =>
      match mapGet cache normalized with
      | some c => c.displayName
      | none => handleId
    | none => handleId

/-- Deduplication keeping first occurrences, modelling the JS idiom of
building an Array from a Set of pushed matches. -/
def dedupFirstAux (seen : List String) : List String → List String
  | [] => []
  | a :: rest =>
    if a ∈ seen then dedupFirstAux seen rest else a :: dedupFirstAux (a :: seen) rest

def dedupFirst (l : List String) : List String := dedupFirstAux [] l

/-- resolveNameToHandleIds over an already-built nameToHandles map. -/
def resolveNameToHandleIds (nameToHandles : List (String × List String))
    (name : String) : List String :=
  if name = "" then []
  else
    match mapGet nameToHandles (jsTrim (jsToLower name)) with
    | some s => s
    | none =>
      dedupFirst (((nameToHandles.filter (fun p =>
        strIncludes p.1 (jsTrim (jsToLower name)) || strIncludes (jsTrim (jsToLower name)) p.1)).map
          Prod.snd).flatten)

/-- Restatement of the claim wording for name resolution (exact token match
first, else union the bidirectional substring matches), with no special
case for the empty input. -/
def resolveNameToHandlesClaimed (nameToHandles : List (String × List String))
    (name : String) : List String :=
  match mapGet nameToHandles (jsTrim (jsToLower name)) with
  | some s => s
  | none =>
    dedupFirst (((nameToHandles.filter (fun p =>
      strIncludes p.1 (jsTrim (jsToLower name)) || strIncludes (jsTrim (jsToLower name)) p.1)).map
        Prod.snd).flatten)

-- ## Lemmas: JS 32-bit arithmetic
theorem toUint32_ofNat {n : Nat} (h : n < 2 ^ 32) : toUint32 (Int.ofNat n) = n := by
  unfold toUint32
  simp only [Int.ofNat_eq_coe]
  omega

theorem toUint32_ofUint32 {n : Nat} (h : n < 2 ^ 32) : toUint32 (ofUint32 n) = n := by
  unfold toUint32 ofUint32
  split <;> omega

theorem ofUint32_small {n : Nat} (h : n < 2 ^ 31) : ofUint32 n = Int.ofNat n := by
  unfold ofUint32
  simp only [Int.ofNat_eq_coe]
  split <;> omega

theorem ofUint32_large {n : Nat} (h : 2 ^ 31 <= n) : ofUint32 n = (n : Int) - 2 ^ 32 := by
  unfold ofUint32
  split <;> omega

theorem lor_mul_add (i a b : Nat) (h : b < 2 ^ i) : (2 ^ i * a) ||| b = 2 ^ i * a + b :=
  (Nat.mul_add_lt_is_or h a).symm

theorem jsOr_def (a b : Int) : jsOr a b = ofUint32 (toUint32 a ||| toUint32 b) := rfl

theorem jsShl_byte {b : Nat} (k : Nat) (hb : b < 2 ^ 8) (hk : k < 32) (hbk : b * 2 ^ k < 2 ^ 32) :
    jsShl (Int.ofNat b) k = ofUint32 (b * 2 ^ k) := by
  unfold jsShl
  rw [toUint32_ofNat (lt_trans hb (by norm_num)), Nat.mod_eq_of_lt hk, Nat.shiftLeft_eq,
    Nat.mod_eq_of_lt hbk]

theorem twoByteLen {b0 b1 : Nat} (h0 : b0 < 2 ^ 8) (h1 : b1 < 2 ^ 8) :
    jsOr (jsShl (Int.ofNat b0) 8) (Int.ofNat b1) = Int.ofNat (b0 * 2 ^ 8 + b1) := by
  have hs : jsShl (Int.ofNat b0) 8 = ofUint32 (b0 * 2 ^ 8) :=
    jsShl_byte 8 h0 (by norm_num) (by omega)
  rw [jsOr_def, hs, toUint32_ofUint32 (show b0 * 2 ^ 8 < 2 ^ 32 by omega),
    toUint32_ofNat (show b1 < 2 ^ 32 by omega),
    mul_comm b0 (2 ^ 8), lor_mul_add 8 b0 b1 h1, ofUint32_small (by omega), mul_comm]

theorem fourByteAccum {b0 b1 b2 b3 : Nat} (h0 : b0 < 2 ^ 8) (h1 : b1 < 2 ^ 8)
    (h2 : b2 < 2 ^ 8) (h3 : b3 < 2 ^ 8) :
    jsOr (jsOr (jsOr (jsShl (Int.ofNat b0) 24) (jsShl (Int.ofNat b1) 16))
      (jsShl (Int.ofNat b2) 8)) (Int.ofNat b3) =
    ofUint32 (b0 * 2 ^ 24 + b1 * 2 ^ 16 + b2 * 2 ^ 8 + b3) := by
  have a0 : toUint32 (jsShl (Int.ofNat b0) 24) = b0 * 2 ^ 24 := by
    rw [jsShl_byte 24 h0 (by norm_num) (by omega)]
    exact toUint32_ofUint32 (by omega)
  have a1 : toUint32 (jsShl (Int.ofNat b1) 16) = b1 * 2 ^ 16 := by
    rw [jsShl_byte 16 h1 (by norm_num) (by omega)]
    exact toUint32_ofUint32 (by omega)
  have a2 : toUint32 (jsShl (Int.ofNat b2) 8) = b2 * 2 ^ 8 := by
    rw [jsShl_byte 8 h2 (by norm_num) (by omega)]
    exact toUint32_ofUint32 (by omega)
  have a3 : toUint32 (Int.ofNat b3) = b3 := toUint32_ofNat (by omega)
  have e1 : b0 * 2 ^ 24 ||| b1 * 2 ^ 16 = b0 * 2 ^ 24 + b1 * 2 ^ 16 := by
    rw [mul_comm b0 (2 ^ 24), lor_mul_add 24 b0 (b1 * 2 ^ 16) (by omega), mul_comm (2 ^ 24) b0]
  have b12 : jsOr (jsShl (Int.ofNat b0) 24) (jsShl (Int.ofNat b1) 16) =
      ofUint32 (b0 * 2 ^ 24 + b1 * 2 ^ 16) := by
    rw [jsOr_def, a0, a1, e1]
  have b12t : toUint32 (jsOr (jsShl (Int.ofNat b0) 24) (jsShl (Int.ofNat b1) 16)) =
      b0 * 2 ^ 24 + b1 * 2 ^ 16 := by
    rw [b12]
    exact toUint32_ofUint32 (by omega)
  have e2 : b0 * 2 ^ 24 + b1 * 2 ^ 16 ||| b2 * 2 ^ 8 =
      b0 * 2 ^ 24 + b1 * 2 ^ 16 + b2 * 2 ^ 8 := by
    have r : b0 * 2 ^ 24 + b1 * 2 ^ 16 = 2 ^ 16 * (2 ^ 8 * b0 + b1) := by ring
    rw [r, lor_mul_add 16 (2 ^ 8 * b0 + b1) (b2 * 2 ^ 8) (by omega)]
  have b123 : jsOr (jsOr (jsShl (Int.ofNat b0) 24) (jsShl (Int.ofNat b1) 16))
      (jsShl (Int.ofNat b2) 8) = ofUint32 (b0 * 2 ^ 24 + b1 * 2 ^ 16 + b2 * 2 ^ 8) := by
    rw [jsOr_def, b12t, a2, e2]
  have b123t : toUint32 (jsOr (jsOr (jsShl (Int.ofNat b0) 24) (jsShl (Int.ofNat b1) 16))
      (jsShl (Int.ofNat b2) 8)) = b0 * 2 ^ 24 + b1 * 2 ^ 16 + b2 * 2 ^ 8 := by
    rw [b123]
    exact toUint32_ofUint32 (by omega)
  have e3 : b0 * 2 ^ 24 + b1 * 2 ^ 16 + b2 * 2 ^ 8 ||| b3 =
      b0 * 2 ^ 24 + b1 * 2 ^ 16 + b2 * 2 ^ 8 + b3 := by
    have r : b0 * 2 ^ 24 + b1 * 2 ^ 16 + b2 * 2 ^ 8 =
        2 ^ 8 * (2 ^ 16 * b0 + 2 ^ 8 * b1 + b2) := by ring
    rw [r, lor_mul_add 8 (2 ^ 16 * b0 + 2 ^ 8 * b1 + b2) b3 h3]
  rw [jsOr_def, b123t, a3, e3]

theorem fourByteLen_pos {b0 b1 b2 b3 : Nat} (h0 : b0 < 2 ^ 7) (h1 : b1 < 2 ^ 8)
    (h2 : b2 < 2 ^ 8) (h3 : b3 < 2 ^ 8) :
    jsOr (jsOr (jsOr (jsShl (Int.ofNat b0) 24) (jsShl (Int.ofNat b1) 16))
      (jsShl (Int.ofNat b2) 8)) (Int.ofNat b3) =
    Int.ofNat (b0 * 2 ^ 24 + b1 * 2 ^ 16 + b2 * 2 ^ 8 + b3) := by
  rw [fourByteAccum (lt_trans h0 (by norm_num)) h1 h2 h3]
  exact ofUint32_small (by omega)

theorem fourByteLen_neg {b0 b1 b2 b3 : Nat} (h0l : 2 ^ 7 <= b0) (h0 : b0 < 2 ^ 8)
    (h1 : b1 < 2 ^ 8) (h2 : b2 < 2 ^ 8) (h3 : b3 < 2 ^ 8) :
    jsOr (jsOr (jsOr (jsShl (Int.ofNat b0) 24) (jsShl (Int.ofNat b1) 16))
      (jsShl (Int.ofNat b2) 8)) (Int.ofNat b3) < 0 := by
  rw [fourByteAccum h0 h1 h2 h3, ofUint32_large (by omega)]
  have hlt : b0 * 2 ^ 24 + b1 * 2 ^ 16 + b2 * 2 ^ 8 + b3 < 2 ^ 32 := by omega
  omega

-- ## Lemmas: marker search and the delimiter scan loop

theorem startsWithSeq_append (xs ys : List Nat) : startsWithSeq (xs ++ ys) xs = true := by
  induction xs with
  | nil => simp [startsWithSeq]
  | cons a as ih => simp [startsWithSeq, ih]

theorem indexOfSeq_self (pat rest : List Nat) (h : pat ≠ []) :
    indexOfSeq pat (pat ++ rest) = some 0 := by
  match pat with
  | [] => exact absurd rfl h
  | p :: ps =>
    show indexOfSeq (p :: ps) (p :: (ps ++ rest)) = some 0
    rw [indexOfSeq]
    rw [show p :: (ps ++ rest) = (p :: ps) ++ rest from rfl, startsWithSeq_append]
    simp

theorem readByte_ok {buf : List Nat} {pos : Nat} (h : pos < buf.length) :
    readByte buf pos = Except.ok buf[pos] := by
  simp [readByte, List.getElem?_eq_getElem h]

theorem readByte_some {buf : List Nat} {pos v : Nat} (h : buf[pos]? = some v) :
    readByte buf pos = Except.ok v := by
  simp [readByte, h]

theorem withByte_some {buf : List Nat} {pos v : Nat} (h : buf[pos]? = some v)
    (k : Nat → Except String (Option String)) : withByte buf pos k = k v := by
  simp [withByte, readByte_some h]

theorem scanLoop_reaches (buf : List Nat) (searchEnd D : Nat)
    (hse : searchEnd <= buf.length) (hD : D <= searchEnd)
    (hhit : D < searchEnd → buf[D]? = some 0x2b) :
    ∀ fuel pos, pos <= D → searchEnd - pos <= fuel →
    (∀ i, pos <= i → i < D → buf[i]? ≠ some 0x2b) →
    scanLoop buf searchEnd fuel pos = Except.ok D := by
  intro fuel
  induction fuel with
  | zero =>
    intro pos hpos hfuel _
    have : pos = D := by omega
    rw [this, scanLoop]
  | succ fuel ih =>
    intro pos hpos hfuel hmiss
    rw [scanLoop]
    by_cases hps : pos < searchEnd
    · have hlt : pos < buf.length := lt_of_lt_of_le hps hse
      rw [if_pos hps, readByte_ok hlt]
      by_cases hpD : pos = D
      · subst hpD
        have hb := hhit hps
        rw [List.getElem?_eq_getElem hlt] at hb
        have hv : buf[pos] = 0x2b := by injection hb
        simp [hv]
      · have hplt : pos < D := lt_of_le_of_ne hpos hpD
        have hne : buf[pos] ≠ 0x2b := by
          intro hc
          exact hmiss pos le_rfl hplt (by rw [List.getElem?_eq_getElem hlt, hc])
        have hbeq : (buf[pos] == 0x2b) = false := beq_false_of_ne hne
        simp only [hbeq, Bool.false_eq_true, if_false]
        exact ih (pos + 1) (by omega) (by omega) (fun i hi1 hi2 => hmiss i (by omega) hi2)
    · rw [if_neg hps]
      have : pos = D := by omega
      rw [this]

theorem length_nsStringMarker : nsStringMarker.length = 8 := rfl

/-- Unfolding step for the decoder once the marker index and the scan result
are known. -/
theorem extract_steps (buf : List Nat) (idx p : Nat)
    (h : indexOfSeq nsStringMarker buf = some idx)
    (hs : scanLoop buf (min (idx + nsStringMarker.length + 12) buf.length)
      (min (idx + nsStringMarker.length + 12) buf.length - (idx + nsStringMarker.length))
      (idx + nsStringMarker.length) = Except.ok p) :
    extractTextFromAttributedBody (JSVal.buffer buf) = afterScan buf p := by
  simp only [extractTextFromAttributedBody, h, hs]

/-- Element lookup in a well-formed buffer, one byte past the delimiter and
then j further. -/
theorem con_get (header tail : List Nat) (j : Nat) {v : Nat} (hj : tail[j]? = some v)
    {i : Nat} (hi : i = 9 + header.length + j) :
    (nsStringMarker ++ header ++ 0x2b :: tail)[i]? = some v := by
  have hD : (nsStringMarker ++ header).length = 8 + header.length := by
    rw [List.length_append, length_nsStringMarker]
  have hle : (nsStringMarker ++ header).length <= i := by omega
  rw [List.getElem?_append_right hle, hD, hi]
  have : 9 + header.length + j - (8 + header.length) = j + 1 := by omega
  rw [this]
  simpa using hj

/-- Shape of the decoder on a well-formed buffer: marker at the front, then
up to 12 delimiter-free header bytes, then the 0x2b delimiter; the decoder
always continues with the length field right after the delimiter. -/
theorem decode_con (header tail : List Nat) (hlen : header.length <= 12)
    (hno : ∀ x ∈ header, x ≠ 0x2b) :
    extractTextFromAttributedBody (JSVal.buffer (nsStringMarker ++ header ++ 0x2b :: tail)) =
    readTextLen (nsStringMarker ++ header ++ 0x2b :: tail) (9 + header.length) := by
  have hmark : nsStringMarker ≠ [] := by decide
  set buf := nsStringMarker ++ header ++ 0x2b :: tail with hbuf
  have hassoc : buf = nsStringMarker ++ (header ++ 0x2b :: tail) := by
    rw [hbuf, List.append_assoc]
  have hD : (nsStringMarker ++ header).length = 8 + header.length := by
    rw [List.length_append, length_nsStringMarker]
  have hblen : buf.length = 9 + header.length + tail.length := by
    rw [hbuf, List.length_append, hD, List.length_cons]
    omega
  have hDget : buf[8 + header.length]? = some 0x2b := by
    rw [hbuf, List.getElem?_append_right (le_of_eq hD), hD]
    simp
  have hmiss : ∀ i, 8 <= i → i < 8 + header.length → buf[i]? ≠ some 0x2b := by
    intro i hi1 hi2 hc
    have hlt1 : i < (nsStringMarker ++ header).length := by rw [hD]; omega
    rw [hbuf, List.getElem?_append_left hlt1] at hc
    have h1 : nsStringMarker.length <= i := by rw [length_nsStringMarker]; omega
    rw [List.getElem?_append_right h1] at hc
    rw [List.getElem?_eq_some_iff] at hc
    obtain ⟨hlt2, hv⟩ := hc
    exact hno _ (hv ▸ List.getElem_mem hlt2) rfl
  have hidx : indexOfSeq nsStringMarker buf = some 0 := by
    rw [hassoc]
    exact indexOfSeq_self _ _ hmark
  have hscan : scanLoop buf (min (0 + nsStringMarker.length + 12) buf.length)
      (min (0 + nsStringMarker.length + 12) buf.length - (0 + nsStringMarker.length))
      (0 + nsStringMarker.length) = Except.ok (8 + header.length) := by
    rw [length_nsStringMarker]
    exact scanLoop_reaches buf (min (0 + 8 + 12) buf.length) (8 + header.length)
      (min_le_right _ _) (le_min (by omega) (by omega)) (fun _ => hDget)
      (min (0 + 8 + 12) buf.length - (0 + 8)) (0 + 8) (by omega) (by omega)
      (fun i hi1 hi2 => hmiss i (by omega) hi2)
  rw [extract_steps buf 0 (8 + header.length) hidx hscan]
  rw [afterScan, if_neg (by omega), withByte_some hDget]
  norm_num
  congr 1
  omega

theorem con_length (header tail : List Nat) :
    (nsStringMarker ++ header ++ 0x2b :: tail).length = 9 + header.length + tail.length := by
  rw [List.length_append, List.length_append, length_nsStringMarker, List.length_cons]
  omega

theorem con_drop (header tail : List Nat) {j i : Nat} (hi : i = 9 + header.length + j) :
    (nsStringMarker ++ header ++ 0x2b :: tail).drop i = tail.drop j := by
  have hD : (nsStringMarker ++ header).length = 8 + header.length := by
    rw [List.length_append, length_nsStringMarker]
  have hi2 : i = (nsStringMarker ++ header).length + (1 + j) := by omega
  rw [hi2, List.drop_append, Nat.add_comm 1 j, List.drop_succ_cons]

theorem finishDecode_pos (buf : List Nat) (N p : Nat) (h1 : 1 <= N) (h2 : p + N <= buf.length) :
    finishDecode buf (Int.ofNat N) p = Except.ok (some (utf8Decode ((buf.drop p).take N))) := by
  rw [finishDecode, if_neg]
  · simp
  · push_neg
    refine ⟨by simp only [Int.ofNat_eq_coe]; omega, ?_⟩
    simp only [Int.ofNat_eq_coe]
    omega

theorem finishDecode_nonpos (buf : List Nat) (t : Int) (p : Nat) (h : t <= 0) :
    finishDecode buf t p = Except.ok none := by
  rw [finishDecode, if_pos (Or.inl h)]

theorem readTextLen_con_single (header rest : List Nat) (n : Nat)
    (hn1 : n ≠ 0x81) (hn2 : n ≠ 0x82) :
    readTextLen (nsStringMarker ++ header ++ 0x2b :: n :: rest) (9 + header.length) =
    finishDecode (nsStringMarker ++ header ++ 0x2b :: n :: rest) (Int.ofNat n)
      (10 + header.length) := by
  set buf := nsStringMarker ++ header ++ 0x2b :: n :: rest with hbuf
  have hblen : buf.length = 10 + header.length + rest.length := by
    rw [hbuf, con_length, List.length_cons]
    omega
  have hn : buf[9 + header.length]? = some n := by
    rw [hbuf]
    exact con_get header (n :: rest) 0 (by simp) (by omega)
  have hif1 : ¬ (buf.length <= 9 + header.length) := by omega
  have hif2 : ¬ (n = 0x81 ∧ 9 + header.length + 3 <= buf.length) := fun hc => hn1 hc.1
  have hif3 : ¬ (n = 0x82 ∧ 9 + header.length + 5 <= buf.length) := fun hc => hn2 hc.1
  simp only [readTextLen, if_neg hif1, withByte_some hn, if_neg hif2, if_neg hif3]
  congr 1
  omega

set_option maxRecDepth 8000 in
theorem readTextLen_con_two (header rest : List Nat) (b0 b1 : Nat) :
    readTextLen (nsStringMarker ++ header ++ 0x2b :: 0x81 :: b0 :: b1 :: rest)
      (9 + header.length) =
    finishDecode (nsStringMarker ++ header ++ 0x2b :: 0x81 :: b0 :: b1 :: rest)
      (jsOr (jsShl (Int.ofNat b0) 8) (Int.ofNat b1)) (12 + header.length) := by
  set buf := nsStringMarker ++ header ++ 0x2b :: 0x81 :: b0 :: b1 :: rest with hbuf
  have hblen : buf.length = 12 + header.length + rest.length := by
    rw [hbuf, con_length]
    simp only [List.length_cons]
    omega
  have hlen0 : buf[9 + header.length]? = some 0x81 := by
    rw [hbuf]
    exact con_get header _ 0 (by simp) (by omega)
  have hb0 : buf[9 + header.length + 1]? = some b0 := by
    rw [hbuf]
    exact con_get header _ 1 (by simp) (by omega)
  have hb1 : buf[9 + header.length + 2]? = some b1 := by
    rw [hbuf]
    exact con_get header _ 2 (by simp) (by omega)
  have hif1 : ¬ (buf.length <= 9 + header.length) := by omega
  have hif2 : (0x81 : Nat) = 0x81 ∧ 9 + header.length + 3 <= buf.length := ⟨rfl, by omega⟩
  simp only [readTextLen, if_neg hif1, withByte_some hlen0, if_pos hif2,
    withByte_some hb0, withByte_some hb1]
  rw [show 9 + header.length + 3 = 12 + header.length from by omega]
  exact if_pos ⟨trivial, by omega⟩

set_option maxRecDepth 8000 in
theorem readTextLen_con_four (header rest : List Nat) (b0 b1 b2 b3 : Nat) :
    readTextLen (nsStringMarker ++ header ++ 0x2b :: 0x82 :: b0 :: b1 :: b2 :: b3 :: rest)
      (9 + header.length) =
    finishDecode (nsStringMarker ++ header ++ 0x2b :: 0x82 :: b0 :: b1 :: b2 :: b3 :: rest)
      (jsOr (jsOr (jsOr (jsShl (Int.ofNat b0) 24) (jsShl (Int.ofNat b1) 16))
        (jsShl (Int.ofNat b2) 8)) (Int.ofNat b3)) (14 + header.length) := by
  set buf := nsStringMarker ++ header ++ 0x2b :: 0x82 :: b0 :: b1 :: b2 :: b3 :: rest with hbuf
  have hblen : buf.length = 14 + header.length + rest.length := by
    rw [hbuf, con_length]
    simp only [List.length_cons]
    omega
  have hlen0 : buf[9 + header.length]? = some 0x82 := by
    rw [hbuf]
    exact con_get header _ 0 (by simp) (by omega)
  have hb0 : buf[9 + header.length + 1]? = some b0 := by
    rw [hbuf]
    exact con_get header _ 1 (by simp) (by omega)
  have hb1 : buf[9 + header.length + 2]? = some b1 := by
    rw [hbuf]
    exact con_get header _ 2 (by simp) (by omega)
  have hb2 : buf[9 + header.length + 3]? = some b2 := by
    rw [hbuf]
    exact con_get header _ 3 (by simp) (by omega)
  have hb3 : buf[9 + header.length + 4]? = some b3 := by
    rw [hbuf]
    exact con_get header _ 4 (by simp) (by omega)
  have hif1 : ¬ (buf.length <= 9 + header.length) := by omega
  have hif2 : ¬ ((0x82 : Nat) = 0x81 ∧ 9 + header.length + 3 <= buf.length) := by
    intro hc
    exact absurd hc.1 (by norm_num)
  have hif3 : (0x82 : Nat) = 0x82 ∧ 9 + header.length + 5 <= buf.length := ⟨rfl, by omega⟩
  simp only [readTextLen, if_neg hif1, withByte_some hlen0, if_neg hif2, if_pos hif3,
    withByte_some hb0, withByte_some hb1, withByte_some hb2, withByte_some hb3]
  rw [show 9 + header.length + 5 = 14 + header.length from by omega]
  exact if_pos ⟨trivial, by omega⟩

-- ## Decoder behaviour on each length-field form

theorem decode_form_zero (header rest : List Nat)
    (hlen : header.length <= 12) (hno : ∀ x ∈ header, x ≠ 0x2b) :
    extractTextFromAttributedBody
      (JSVal.buffer (nsStringMarker ++ header ++ 0x2b :: 0 :: rest)) = Except.ok none := by
  rw [decode_con header (0 :: rest) hlen hno,
    readTextLen_con_single header rest 0 (by omega) (by omega)]
  exact finishDecode_nonpos _ _ _ (by simp)

theorem decode_form_single (header rest : List Nat) (n : Nat)
    (hlen : header.length <= 12) (hno : ∀ x ∈ header, x ≠ 0x2b)
    (hn1 : n ≠ 0x81) (hn2 : n ≠ 0x82) (h1 : 1 <= n) (hr : n <= rest.length) :
    extractTextFromAttributedBody
      (JSVal.buffer (nsStringMarker ++ header ++ 0x2b :: n :: rest)) =
    Except.ok (some (utf8Decode (rest.take n))) := by
  rw [decode_con header (n :: rest) hlen hno,
    readTextLen_con_single header rest n hn1 hn2,
    finishDecode_pos _ n _ h1 (by rw [con_length, List.length_cons]; omega),
    con_drop header (n :: rest) (show 10 + header.length = 9 + header.length + 1 from by omega)]
  simp

theorem decode_form_two (header rest : List Nat) (b0 b1 : Nat)
    (hlen : header.length <= 12) (hno : ∀ x ∈ header, x ≠ 0x2b)
    (hB0 : b0 < 2 ^ 8) (hB1 : b1 < 2 ^ 8)
    (h1 : 1 <= b0 * 2 ^ 8 + b1) (hr : b0 * 2 ^ 8 + b1 <= rest.length) :
    extractTextFromAttributedBody
      (JSVal.buffer (nsStringMarker ++ header ++ 0x2b :: 0x81 :: b0 :: b1 :: rest)) =
    Except.ok (some (utf8Decode (rest.take (b0 * 2 ^ 8 + b1)))) := by
  rw [decode_con header (0x81 :: b0 :: b1 :: rest) hlen hno,
    readTextLen_con_two header rest b0 b1, twoByteLen hB0 hB1,
    finishDecode_pos _ _ _ h1 (by rw [con_length]; simp only [List.length_cons]; omega),
    con_drop header (0x81 :: b0 :: b1 :: rest)
      (show 12 + header.length = 9 + header.length + 3 from by omega)]
  simp

theorem decode_form_four_pos (header rest : List Nat) (b0 b1 b2 b3 : Nat)
    (hlen : header.length <= 12) (hno : ∀ x ∈ header, x ≠ 0x2b)
    (hB0 : b0 < 2 ^ 7) (hB1 : b1 < 2 ^ 8) (hB2 : b2 < 2 ^ 8) (hB3 : b3 < 2 ^ 8)
    (h1 : 1 <= b0 * 2 ^ 24 + b1 * 2 ^ 16 + b2 * 2 ^ 8 + b3)
    (hr : b0 * 2 ^ 24 + b1 * 2 ^ 16 + b2 * 2 ^ 8 + b3 <= rest.length) :
    extractTextFromAttributedBody
      (JSVal.buffer (nsStringMarker ++ header ++ 0x2b :: 0x82 :: b0 :: b1 :: b2 :: b3 :: rest)) =
    Except.ok (some (utf8Decode (rest.take (b0 * 2 ^ 24 + b1 * 2 ^ 16 + b2 * 2 ^ 8 + b3)))) := by
  rw [decode_con header (0x82 :: b0 :: b1 :: b2 :: b3 :: rest) hlen hno,
    readTextLen_con_four header rest b0 b1 b2 b3, fourByteLen_pos hB0 hB1 hB2 hB3,
    finishDecode_pos _ _ _ h1 (by rw [con_length]; simp only [List.length_cons]; omega),
    con_drop header (0x82 :: b0 :: b1 :: b2 :: b3 :: rest)
      (show 14 + header.length = 9 + header.length + 5 from by omega)]
  simp

theorem decode_form_four_neg (header rest : List Nat) (b0 b1 b2 b3 : Nat)
    (hlen : header.length <= 12) (hno : ∀ x ∈ header, x ≠ 0x2b)
    (hmsb : 2 ^ 7 <= b0) (hB0 : b0 < 2 ^ 8) (hB1 : b1 < 2 ^ 8) (hB2 : b2 < 2 ^ 8)
    (hB3 : b3 < 2 ^ 8) :
    extractTextFromAttributedBody
      (JSVal.buffer (nsStringMarker ++ header ++ 0x2b :: 0x82 :: b0 :: b1 :: b2 :: b3 :: rest)) =
    Except.ok none := by
  rw [decode_con header (0x82 :: b0 :: b1 :: b2 :: b3 :: rest) hlen hno,
    readTextLen_con_four header rest b0 b1 b2 b3]
  exact finishDecode_nonpos _ _ _ (le_of_lt (fourByteLen_neg hmsb hB0 hB1 hB2 hB3))

/-- The four-byte length form with the most significant bit of the first
length byte set: the recovered length is negative, so the decoder rejects. -/
theorem readTextLen_four_neg (buf : List Nat) (p2 b0 b1 b2 b3 : Nat)
    (hlen0 : buf[p2]? = some 0x82) (hb0 : buf[p2 + 1]? = some b0)
    (hb1 : buf[p2 + 2]? = some b1) (hb2 : buf[p2 + 3]? = some b2)
    (hb3 : buf[p2 + 4]? = some b3) (hroom : p2 + 5 <= buf.length)
    (hmsb : 2 ^ 7 <= b0) (hB0 : b0 < 2 ^ 8) (hB1 : b1 < 2 ^ 8) (hB2 : b2 < 2 ^ 8)
    (hB3 : b3 < 2 ^ 8) :
    readTextLen buf p2 = Except.ok none := by
  have hif1 : ¬ (buf.length <= p2) := by omega
  have hif2 : ¬ ((0x82 : Nat) = 0x81 ∧ p2 + 3 <= buf.length) := by
    intro hc
    exact absurd hc.1 (by norm_num)
  simp only [readTextLen, if_neg hif1, withByte_some hlen0, if_neg hif2,
    withByte_some hb0, withByte_some hb1, withByte_some hb2, withByte_some hb3]
  rw [if_pos ⟨trivial, hroom⟩]
  exact finishDecode_nonpos _ _ _ (le_of_lt (fourByteLen_neg hmsb hB0 hB1 hB2 hB3))

-- ## Totality of the decoder (no read is ever out of bounds)

theorem scanLoop_no_error (buf : List Nat) (searchEnd : Nat) (hse : searchEnd <= buf.length) :
    ∀ fuel pos, ∃ p, scanLoop buf searchEnd fuel pos = Except.ok p := by
  intro fuel
  induction fuel with
  | zero => exact fun pos => ⟨pos, rfl⟩
  | succ fuel ih =>
    intro pos
    rw [scanLoop]
    by_cases hps : pos < searchEnd
    · rw [if_pos hps, readByte_ok (lt_of_lt_of_le hps hse)]
      by_cases hb : (buf[pos] == 0x2b) = true
      · exact ⟨pos, by simp [hb]⟩
      · obtain ⟨p, hp⟩ := ih (pos + 1)
        exact ⟨p, by simp only [hb, if_false]; exact hp⟩
    · exact ⟨pos, by rw [if_neg hps]⟩

theorem finishDecode_isOk (buf : List Nat) (t : Int) (p : Nat) :
    ∃ r, finishDecode buf t p = Except.ok r := by
  rw [finishDecode]
  split
  · exact ⟨none, rfl⟩
  · exact ⟨some _, rfl⟩

theorem readTextLen_isOk (buf : List Nat) (p2 : Nat) :
    ∃ r, readTextLen buf p2 = Except.ok r := by
  rw [readTextLen]
  by_cases h0 : buf.length <= p2
  · exact ⟨none, by rw [if_pos h0]⟩
  · rw [if_neg h0]
    rw [withByte_some (List.getElem?_eq_getElem (show p2 < buf.length by omega))]
    by_cases h1 : buf[p2] = 0x81 ∧ p2 + 3 <= buf.length
    · rw [if_pos h1]
      rw [withByte_some (List.getElem?_eq_getElem (show p2 + 1 < buf.length by omega))]
      rw [withByte_some (List.getElem?_eq_getElem (show p2 + 2 < buf.length by omega))]
      exact finishDecode_isOk _ _ _
    · rw [if_neg h1]
      by_cases h2 : buf[p2] = 0x82 ∧ p2 + 5 <= buf.length
      · rw [if_pos h2]
        rw [withByte_some (List.getElem?_eq_getElem (show p2 + 1 < buf.length by omega))]
        rw [withByte_some (List.getElem?_eq_getElem (show p2 + 2 < buf.length by omega))]
        rw [withByte_some (List.getElem?_eq_getElem (show p2 + 3 < buf.length by omega))]
        rw [withByte_some (List.getElem?_eq_getElem (show p2 + 4 < buf.length by omega))]
        exact finishDecode_isOk _ _ _
      · rw [if_neg h2]
        exact finishDecode_isOk _ _ _

theorem afterScan_isOk (buf : List Nat) (p : Nat) :
    ∃ r, afterScan buf p = Except.ok r := by
  rw [afterScan]
  by_cases h0 : buf.length <= p
  · exact ⟨none, by rw [if_pos h0]⟩
  · rw [if_neg h0]
    rw [withByte_some (List.getElem?_eq_getElem (show p < buf.length by omega))]
    by_cases h1 : buf[p] ≠ 0x2b
    · exact ⟨none, by rw [if_pos h1]⟩
    · rw [if_neg h1]
      exact readTextLen_isOk _ _

-- ## Claim theorems for the binary decoder

/-- C4: the decoder is total — on every input (non-Buffer values included)
it finishes with a text or with absent, and no byte read is ever out of
bounds (modelled as: the error case of the read monad is unreachable). -/
theorem C4_decode_total (v : JSVal) :
    ∃ r : Option String, extractTextFromAttributedBody v = Except.ok r := by
  match v with
  | JSVal.nonBuffer => exact ⟨none, rfl⟩
  | JSVal.buffer buf =>
    match hidx : indexOfSeq nsStringMarker buf with
    | none =>
      refine ⟨none, ?_⟩
      simp only [extractTextFromAttributedBody, hidx]
    | some idx =>
      obtain ⟨p, hp⟩ := scanLoop_no_error buf
        (min (idx + nsStringMarker.length + 12) buf.length) (min_le_right _ _)
        (min (idx + nsStringMarker.length + 12) buf.length - (idx + nsStringMarker.length))
        (idx + nsStringMarker.length)
      obtain ⟨r, hr⟩ := afterScan_isOk buf p
      refine ⟨r, ?_⟩
      rw [extract_steps buf idx p hidx hp]
      exact hr

/-- C4 witness at a concrete input. -/
theorem C4_decode_total_witness :
    ∃ r : Option String,
      extractTextFromAttributedBody (JSVal.buffer [1, 2, 3]) = Except.ok r :=
  C4_decode_total (JSVal.buffer [1, 2, 3])

/-- C10: whenever the decoder reaches the four-byte (0x82) length form and
the big-endian length has its most significant bit set, the 32-bit signed
shift-and-or reconstruction is negative, the positivity check fails, and
the decoder returns absent without slicing. -/
theorem C10_four_byte_msb_absent (buf : List Nat) (idx pos1 b0 b1 b2 b3 : Nat)
    (hidx : indexOfSeq nsStringMarker buf = some idx)
    (hscan : scanLoop buf (min (idx + nsStringMarker.length + 12) buf.length)
      (min (idx + nsStringMarker.length + 12) buf.length - (idx + nsStringMarker.length))
      (idx + nsStringMarker.length) = Except.ok pos1)
    (hd : buf[pos1]? = some 0x2b)
    (hlen0 : buf[pos1 + 1]? = some 0x82) (hb0 : buf[pos1 + 2]? = some b0)
    (hb1 : buf[pos1 + 3]? = some b1) (hb2 : buf[pos1 + 4]? = some b2)
    (hb3 : buf[pos1 + 5]? = some b3) (hroom : pos1 + 6 <= buf.length)
    (hmsb : 2 ^ 7 <= b0) (hB0 : b0 < 2 ^ 8) (hB1 : b1 < 2 ^ 8) (hB2 : b2 < 2 ^ 8)
    (hB3 : b3 < 2 ^ 8) :
    extractTextFromAttributedBody (JSVal.buffer buf) = Except.ok none := by
  rw [extract_steps buf idx pos1 hidx hscan]
  rw [afterScan, if_neg (by omega), withByte_some hd, if_neg (by simp)]
  exact readTextLen_four_neg buf (pos1 + 1) b0 b1 b2 b3 hlen0 hb0 hb1 hb2 hb3
    (show pos1 + 1 + 5 <= buf.length by omega) hmsb hB0 hB1 hB2 hB3

/-- C10 witness: a concrete buffer reaching the 0x82 form with length bytes
0x80 00 00 … (most significant bit set) decodes to absent. -/
theorem C10_four_byte_msb_absent_witness :
    extractTextFromAttributedBody
      (JSVal.buffer (nsStringMarker ++ [0x2b, 0x82, 0x80, 1, 2, 3])) = Except.ok none :=
  C10_four_byte_msb_absent (nsStringMarker ++ [0x2b, 0x82, 0x80, 1, 2, 3]) 0 8 0x80 1 2 3
    (by decide) (by rfl) (by decide) (by decide) (by decide) (by decide) (by decide)
    (by decide) (by decide) (by decide) (by decide) (by decide) (by decide) (by decide)

/-- C2 (amended): on a buffer of the form marker + delimiter-free header
(within the window) + delimiter + length field + payload of at least the
decoded length, decode returns the UTF-8 decoding of exactly that many
payload bytes, for the one-byte form (length 1..0x80), the 0x81 two-byte
big-endian form, and the 0x82 four-byte big-endian form restricted to
values below 2^31 (the amendment: values with the top bit set go through
32-bit signed arithmetic, come out negative and are rejected); a decoded
length of zero is rejected and yields absent. -/
theorem C2_decode_length_forms :
    (∀ header rest : List Nat, ∀ n : Nat, header.length <= 12 →
      (∀ x ∈ header, x ≠ 0x2b) → 1 <= n → n <= 0x80 → n <= rest.length →
      extractTextFromAttributedBody
        (JSVal.buffer (nsStringMarker ++ header ++ 0x2b :: n :: rest)) =
      Except.ok (some (utf8Decode (rest.take n)))) ∧
    (∀ header rest : List Nat, header.length <= 12 → (∀ x ∈ header, x ≠ 0x2b) →
      extractTextFromAttributedBody
        (JSVal.buffer (nsStringMarker ++ header ++ 0x2b :: 0 :: rest)) = Except.ok none) ∧
    (∀ header rest : List Nat, ∀ b0 b1 : Nat, header.length <= 12 →
      (∀ x ∈ header, x ≠ 0x2b) → b0 < 2 ^ 8 → b1 < 2 ^ 8 →
      1 <= b0 * 2 ^ 8 + b1 → b0 * 2 ^ 8 + b1 <= rest.length →
      extractTextFromAttributedBody
        (JSVal.buffer (nsStringMarker ++ header ++ 0x2b :: 0x81 :: b0 :: b1 :: rest)) =
      Except.ok (some (utf8Decode (rest.take (b0 * 2 ^ 8 + b1))))) ∧
    (∀ header rest : List Nat, ∀ b0 b1 b2 b3 : Nat, header.length <= 12 →
      (∀ x ∈ header, x ≠ 0x2b) → b0 < 2 ^ 7 → b1 < 2 ^ 8 → b2 < 2 ^ 8 → b3 < 2 ^ 8 →
      1 <= b0 * 2 ^ 24 + b1 * 2 ^ 16 + b2 * 2 ^ 8 + b3 →
      b0 * 2 ^ 24 + b1 * 2 ^ 16 + b2 * 2 ^ 8 + b3 <= rest.length →
      extractTextFromAttributedBody
        (JSVal.buffer (nsStringMarker ++ header ++ 0x2b :: 0x82 :: b0 :: b1 :: b2 :: b3 :: rest)) =
      Except.ok (some (utf8Decode (rest.take (b0 * 2 ^ 24 + b1 * 2 ^ 16 + b2 * 2 ^ 8 + b3))))) := by
  refine ⟨?_, ?_, ?_, ?_⟩
  · intro header rest n hlen hno h1 h80 hr
    exact decode_form_single header rest n hlen hno (by omega) (by omega) h1 hr
  · intro header rest hlen hno
    exact decode_form_zero header rest hlen hno
  · intro header rest b0 b1 hlen hno hB0 hB1 h1 hr
    exact decode_form_two header rest b0 b1 hlen hno hB0 hB1 h1 hr
  · intro header rest b0 b1 b2 b3 hlen hno hB0 hB1 hB2 hB3 h1 hr
    exact decode_form_four_pos header rest b0 b1 b2 b3 hlen hno hB0 hB1 hB2 hB3 h1 hr

/-- C2 witness: the one-byte form at a concrete buffer (header the four
bytes observed in real payloads, length 1, payload byte 65) decodes to the
string A; the two-byte form with length bytes 01 00 (256) decodes exactly
256 payload bytes. -/
theorem C2_decode_length_forms_witness :
    extractTextFromAttributedBody (JSVal.buffer
      (nsStringMarker ++ [0x01, 0x94, 0x84, 0x01] ++ 0x2b :: 1 :: [65])) =
      Except.ok (some "A") ∧
    extractTextFromAttributedBody (JSVal.buffer
      (nsStringMarker ++ [] ++ 0x2b :: 0x81 :: 1 :: 0 :: List.replicate 256 66)) =
      Except.ok (some (utf8Decode ((List.replicate 256 66).take 256))) := by
  constructor
  · have h := C2_decode_length_forms.1 [0x01, 0x94, 0x84, 0x01] [65] 1 (by decide) (by decide)
      (by decide) (by decide) (by decide)
    exact h.trans (by rfl)
  · have h := (C2_decode_length_forms.2.2.1) [] (List.replicate 256 66) 1 0 (by decide)
      (by decide) (by decide) (by decide) (by decide)
      (by rw [List.length_replicate]; norm_num)
    have h256 : (1 : Nat) * 2 ^ 8 + 0 = 256 := by norm_num
    rw [h256] at h
    exact h

/-- C2 counterexample to the claim as stated: for the four-byte form the
claim puts no bound on the big-endian value; with length bytes 80 00 00 00
(value 2^31) and a sufficient payload the decoder returns absent, not the
2^31 payload bytes the claim would require. -/
theorem C2_counterexample_msb_length :
    extractTextFromAttributedBody (JSVal.buffer
      (nsStringMarker ++ [] ++ 0x2b :: 0x82 :: 0x80 :: 0 :: 0 :: 0 ::
        List.replicate (2 ^ 31) 72)) = Except.ok none ∧
    1 <= 0x80 * 2 ^ 24 + 0 * 2 ^ 16 + 0 * 2 ^ 8 + 0 ∧
    0x80 * 2 ^ 24 + 0 * 2 ^ 16 + 0 * 2 ^ 8 + 0 <= (List.replicate (2 ^ 31) 72).length ∧
    (Except.ok none : Except String (Option String)) ≠ Except.ok (some (utf8Decode
      ((List.replicate (2 ^ 31) 72).take (0x80 * 2 ^ 24 + 0 * 2 ^ 16 + 0 * 2 ^ 8 + 0)))) := by
  refine ⟨?_, by norm_num, by rw [List.length_replicate]; norm_num, ?_⟩
  · exact decode_form_four_neg [] (List.replicate (2 ^ 31) 72) 0x80 0 0 0 (by decide) (by decide)
      (by norm_num) (by norm_num) (by norm_num) (by norm_num) (by norm_num)
  · intro hcon
    have h2 := Except.ok.inj hcon
    injection h2

/-- C3 (amended): if the delimiter byte 0x2b does not occur at any of the
offsets 0 through 12 after the marker (13 positions: the 12 scanned by the
loop plus the post-loop check that also accepts a delimiter exactly one
past the documented window), decode returns absent. -/
theorem C3_delimiter_window (buf : List Nat) (idx : Nat)
    (hidx : indexOfSeq nsStringMarker buf = some idx)
    (hno : ∀ i, i <= 12 → idx + 8 + i < buf.length → buf[idx + 8 + i]? ≠ some 0x2b) :
    extractTextFromAttributedBody (JSVal.buffer buf) = Except.ok none := by
  have hp08 : idx + nsStringMarker.length = idx + 8 := by rw [length_nsStringMarker]
  by_cases hcase : buf.length <= idx + nsStringMarker.length
  · have hf0 : min (idx + nsStringMarker.length + 12) buf.length -
        (idx + nsStringMarker.length) = 0 := by omega
    have hscan : scanLoop buf (min (idx + nsStringMarker.length + 12) buf.length)
        (min (idx + nsStringMarker.length + 12) buf.length - (idx + nsStringMarker.length))
        (idx + nsStringMarker.length) = Except.ok (idx + nsStringMarker.length) := by
      rw [hf0, scanLoop]
    rw [extract_steps buf idx (idx + nsStringMarker.length) hidx hscan]
    rw [afterScan, if_pos hcase]
  · push_neg at hcase
    set searchEnd := min (idx + nsStringMarker.length + 12) buf.length with hsE
    have hseL : searchEnd <= buf.length := min_le_right _ _
    have hseU : searchEnd <= idx + nsStringMarker.length + 12 := min_le_left _ _
    have hseLB : idx + nsStringMarker.length <= searchEnd := by
      rw [hsE]
      omega
    have hmiss : ∀ i, idx + nsStringMarker.length <= i → i < searchEnd →
        buf[i]? ≠ some 0x2b := by
      intro i hi1 hi2
      have h := hno (i - (idx + 8)) (by omega) (by omega)
      rwa [show idx + 8 + (i - (idx + 8)) = i from by omega] at h
    have hscan : scanLoop buf searchEnd (searchEnd - (idx + nsStringMarker.length))
        (idx + nsStringMarker.length) = Except.ok searchEnd :=
      scanLoop_reaches buf searchEnd searchEnd hseL le_rfl
        (fun h => absurd h (lt_irrefl _)) _ _ hseLB le_rfl hmiss
    rw [extract_steps buf idx searchEnd hidx hscan]
    by_cases hend : buf.length <= searchEnd
    · rw [afterScan, if_pos hend]
    · push_neg at hend
      have hne : buf[searchEnd] ≠ 0x2b := by
        have h12 := hno 12 le_rfl (by omega)
        rw [show idx + 8 + 12 = searchEnd from by omega] at h12
        intro hc
        exact h12 (by rw [List.getElem?_eq_getElem hend, hc])
      rw [afterScan, if_neg (by omega),
        withByte_some (List.getElem?_eq_getElem hend), if_pos hne]

/-- C3 witness: a buffer with 13 non-delimiter bytes after the marker
decodes to absent. -/
theorem C3_delimiter_window_witness :
    extractTextFromAttributedBody
      (JSVal.buffer (nsStringMarker ++ List.replicate 13 0)) = Except.ok none := by
  apply C3_delimiter_window (nsStringMarker ++ List.replicate 13 0) 0 (by rfl)
  intro i hi hlen
  interval_cases i <;> decide

/-- C3 counterexample to the claim as stated: the marker sits at index 0,
no delimiter occurs in the 12-byte scan window after it, and yet decode
succeeds, because the post-loop check accepts the delimiter sitting exactly
one byte past the window. -/
theorem C3_counterexample_offset12 :
    indexOfSeq nsStringMarker
      (nsStringMarker ++ List.replicate 12 0 ++ [0x2b, 0x01, 0x41]) = some 0 ∧
    ((List.range 12).all (fun i =>
      ((nsStringMarker ++ List.replicate 12 0 ++ [0x2b, 0x01, 0x41])[8 + i]?) != some 0x2b))
      = true ∧
    extractTextFromAttributedBody (JSVal.buffer
      (nsStringMarker ++ List.replicate 12 0 ++ [0x2b, 0x01, 0x41])) =
      Except.ok (some "A") :=
  ⟨rfl, rfl, rfl⟩

/-- C1: getMessageText returns the direct text field when present and
non-empty, otherwise hands the binary fallback field to the decoder,
otherwise absent; and on a row with null text and a binary body carrying
the one-byte-length encoding of the text, it returns that text. -/
theorem C1_getMessageText_fallback :
    (∀ (msg : MessageRow) (t : String), msg.text = some t → t ≠ "" →
      getMessageText msg = Except.ok (some t)) ∧
    (∀ (msg : MessageRow) (buf : List Nat), jsTruthyStr msg.text = false →
      msg.attributedBody = some buf →
      getMessageText msg = extractTextFromAttributedBody (JSVal.buffer buf)) ∧
    (∀ msg : MessageRow, jsTruthyStr msg.text = false → msg.attributedBody = none →
      getMessageText msg = Except.ok none) ∧
    getMessageText ⟨none, some (nsStringMarker ++ [0x01, 0x94, 0x84, 0x01] ++ 0x2b :: 11 ::
      [72, 101, 108, 108, 111, 32, 119, 111, 114, 108, 100])⟩ =
      Except.ok (some "Hello world") := by
  refine ⟨?_, ?_, ?_, by rfl⟩
  · intro msg t ht hne
    have htr : jsTruthyStr msg.text = true := by
      rw [ht]
      simpa [jsTruthyStr] using hne
    rw [getMessageText, if_pos htr, ht]
  · intro msg buf hfalse hbody
    rw [getMessageText, if_neg (by rw [hfalse]; simp), hbody]
  · intro msg hfalse hbody
    rw [getMessageText, if_neg (by rw [hfalse]; simp), hbody]

/-- C1 witness at concrete rows for each of the three branches. -/
theorem C1_getMessageText_fallback_witness :
    getMessageText ⟨some "hi", none⟩ = Except.ok (some "hi") ∧
    getMessageText ⟨none, some [7]⟩ =
      extractTextFromAttributedBody (JSVal.buffer [7]) ∧
    getMessageText ⟨some "", none⟩ = Except.ok none :=
  ⟨C1_getMessageText_fallback.1 ⟨some "hi", none⟩ "hi" rfl (by decide),
    C1_getMessageText_fallback.2.1 ⟨none, some [7]⟩ [7] rfl rfl,
    C1_getMessageText_fallback.2.2.1 ⟨some "", none⟩ (by decide) rfl⟩

-- ## Claim theorems for phone normalization

theorem toList_mk (l : List Char) : (String.mk l).toList = l := rfl

theorem mk_eq_empty_iff (l : List Char) : String.mk l = "" ↔ l = [] := by
  constructor
  · intro h
    have : (String.mk l).toList = ("" : String).toList := by rw [h]
    simpa [toList_mk] using this
  · intro h
    rw [h]

/-- C5: the normalizer agrees everywhere with the claim wording (strip
non-digits; absent under 7 digits; drop the leading 1 of an 11-digit
number; otherwise the digit string unchanged), including the concrete
instances from the specification. -/
theorem C5_normalize_spec :
    (∀ raw : String, normalizePhoneNumber raw = normalizePhoneClaimed raw) ∧
    normalizePhoneNumber "+1 (555) 123-4567" = some "5551234567" ∧
    normalizePhoneNumber "5551234567" = some "5551234567" ∧
    normalizePhoneNumber "123" = none := by
  refine ⟨?_, by rfl, by rfl, by rfl⟩
  intro raw
  by_cases h : raw = ""
  · subst h
    rfl
  · rw [normalizePhoneNumber, if_neg h]
    rfl

/-- C6: normalization is idempotent — a defined result normalizes to
itself. -/
theorem C6_normalize_idempotent (s r : String) (h : normalizePhoneNumber s = some r) :
    normalizePhoneNumber r = some r := by
  rw [normalizePhoneNumber] at h
  by_cases hs : s = ""
  · rw [if_pos hs] at h
    exact absurd h (by simp)
  · rw [if_neg hs] at h
    set digits := s.toList.filter Char.isDigit with hdig
    have hdigall : ∀ c ∈ digits, c.isDigit := by
      intro c hc
      exact List.of_mem_filter hc
    by_cases h7 : digits.length < 7
    · rw [if_pos h7] at h
      exact absurd h (by simp)
    · rw [if_neg h7] at h
      by_cases h11 : digits.length = 11 ∧ digits.head? = some '1'
      · rw [if_pos h11] at h
        have hr : r = String.mk digits.tail := (Option.some.inj h).symm
        have htlen : digits.tail.length = 10 := by
          rw [List.length_tail, h11.1]
        have htall : ∀ c ∈ digits.tail, c.isDigit := by
          intro c hc
          exact hdigall c (List.mem_of_mem_tail hc)
        have hfilter : digits.tail.filter Char.isDigit = digits.tail :=
          List.filter_eq_self.mpr htall
        subst hr
        rw [normalizePhoneNumber,
          if_neg (fun hc => by rw [mk_eq_empty_iff] at hc; rw [hc] at htlen; simp at htlen)]
        rw [toList_mk, hfilter]
        rw [if_neg (by omega), if_neg (by rw [htlen]; intro hc; omega)]
      · rw [if_neg h11] at h
        have hr : r = String.mk digits := (Option.some.inj h).symm
        have hfilter : digits.filter Char.isDigit = digits :=
          List.filter_eq_self.mpr hdigall
        subst hr
        rw [normalizePhoneNumber,
          if_neg (fun hc => by rw [mk_eq_empty_iff] at hc; rw [hc] at h7; simp at h7)]
        rw [toList_mk, hfilter, if_neg h7, if_neg h11]

/-- C6 witness at a concrete defined input. -/
theorem C6_normalize_idempotent_witness :
    normalizePhoneNumber "5551234567" = some "5551234567" :=
  C6_normalize_idempotent "5551234567" "5551234567" (by rfl)

-- ## Claim theorems for handle and name resolution

/-- C7 (amended): for every non-empty handle the resolver behaves exactly
as the claim words it (classify by the at sign, normalize, look up, else
the input verbatim); the empty handle is special-cased by the code to the
literal Unknown, and in particular the indexed phone resolves to Mom. -/
theorem C7_resolve_handle :
    (∀ (cache : List (String × Contact)) (handleId : String), handleId ≠ "" →
      resolveHandleToName cache handleId = resolveHandleToNameClaimed cache handleId) ∧
    (∀ cache : List (String × Contact), resolveHandleToName cache "" = "Unknown") ∧
    resolveHandleToName [("5551234567", ⟨"Mom", "", "", "", ""⟩)] "+15551234567" = "Mom" := by
  refine ⟨?_, fun cache => rfl, by decide⟩
  intro cache handleId hne
  rw [resolveHandleToName, if_neg hne]
  rfl

/-- C7 witness at a concrete non-empty unresolvable handle. -/
theorem C7_resolve_handle_witness :
    resolveHandleToName [] "nobody@example.com" =
      resolveHandleToNameClaimed [] "nobody@example.com" :=
  C7_resolve_handle.1 [] "nobody@example.com" (by decide)

/-- C7 counterexample to the claim as stated: on the empty handle the code
returns the literal Unknown, not the original input verbatim. -/
theorem C7_counterexample_empty_handle :
    resolveHandleToName [] "" = "Unknown" ∧
    resolveHandleToNameClaimed [] "" = "" ∧
    ("Unknown" : String) ≠ "" :=
  ⟨by decide, by decide, by decide⟩

theorem dedupFirstAux_mem (x : String) :
    ∀ (l seen : List String), x ∈ dedupFirstAux seen l ↔ x ∈ l ∧ x ∉ seen := by
  intro l
  induction l with
  | nil => simp [dedupFirstAux]
  | cons a rest ih =>
    intro seen
    rw [dedupFirstAux]
    by_cases ha : a ∈ seen
    · rw [if_pos ha, ih seen]
      constructor
      · exact fun hx => ⟨List.mem_cons_of_mem a hx.1, hx.2⟩
      · intro hx
        refine ⟨?_, hx.2⟩
        rcases List.mem_cons.mp hx.1 with hxa | hxr
        · exact absurd (hxa ▸ ha) hx.2
        · exact hxr
    · rw [if_neg ha]
      rw [List.mem_cons, ih (a :: seen)]
      constructor
      · intro hx
        rcases hx with hxa | ⟨hxr, hxs⟩
        · exact ⟨by rw [hxa]; exact List.mem_cons_self a rest, by rw [hxa]; exact ha⟩
        · exact ⟨List.mem_cons_of_mem a hxr, fun hc => hxs (List.mem_cons_of_mem a hc)⟩
      · intro ⟨hx1, hx2⟩
        rcases List.mem_cons.mp hx1 with hxa | hxr
        · exact Or.inl hxa
        · by_cases hxae : x = a
          · exact Or.inl hxae
          · exact Or.inr ⟨hxr, fun hc => by
              rcases List.mem_cons.mp hc with h1 | h2
              · exact hxae h1
              · exact hx2 h2⟩

theorem dedupFirst_mem (x : String) (l : List String) : x ∈ dedupFirst l ↔ x ∈ l := by
  rw [dedupFirst, dedupFirstAux_mem]
  simp

/-- C8 (amended): for every non-empty name the resolver behaves exactly as
the claim words it — the exact token match is returned when it exists,
otherwise the union of the bidirectional substring matches (membership
characterized below); the empty name is special-cased by the code to the
empty set, and an unmatched query returns the empty set. -/
theorem C8_resolve_name :
    (∀ (m : List (String × List String)) (name : String), name ≠ "" →
      resolveNameToHandleIds m name = resolveNameToHandlesClaimed m name) ∧
    (∀ (m : List (String × List String)) (name : String) (hs : List String), name ≠ "" →
      mapGet m (jsTrim (jsToLower name)) = some hs → resolveNameToHandleIds m name = hs) ∧
    (∀ (m : List (String × List String)) (name hid : String), name ≠ "" →
      mapGet m (jsTrim (jsToLower name)) = none →
      (hid ∈ resolveNameToHandleIds m name ↔ ∃ p ∈ m,
        (strIncludes p.1 (jsTrim (jsToLower name)) || strIncludes (jsTrim (jsToLower name)) p.1) = true ∧
        hid ∈ p.2)) ∧
    resolveNameToHandleIds [("mom", ["5551234567"])] "xyz-not-present" = [] := by
  have hbody : ∀ (m : List (String × List String)) (name : String), name ≠ "" →
      resolveNameToHandleIds m name = resolveNameToHandlesClaimed m name := by
    intro m name hne
    rw [resolveNameToHandleIds, if_neg hne]
    rfl
  refine ⟨hbody, ?_, ?_, by decide⟩
  · intro m name hs hne hget
    rw [hbody m name hne, resolveNameToHandlesClaimed, hget]
  · intro m name hid hne hget
    rw [hbody m name hne, resolveNameToHandlesClaimed, hget]
    rw [dedupFirst_mem]
    simp only [List.mem_flatten, List.mem_map, List.mem_filter]
    constructor
    · intro ⟨ids, ⟨⟨p, ⟨hpm, hpf⟩, hsnd⟩, hin⟩⟩
      exact ⟨p, hpm, hpf, by rw [hsnd]; exact hin⟩
    · intro ⟨p, hpm, hpf, hin⟩
      exact ⟨p.2, ⟨p, ⟨hpm, hpf⟩, rfl⟩, hin⟩

/-- C8 witness: an exact token match returns exactly the indexed set. -/
theorem C8_resolve_name_witness :
    resolveNameToHandleIds [("mom", ["5551234567"])] "Mom" = ["5551234567"] :=
  C8_resolve_name.2.1 [("mom", ["5551234567"])] "Mom" ["5551234567"] (by decide) (by decide)

/-- C8 counterexample to the claim as stated: on the empty name the code
returns the empty set, but the described bidirectional substring rule
matches every indexed token (every string contains the empty string), so
the claimed union is non-empty. -/
theorem C8_counterexample_empty_name :
    resolveNameToHandleIds [("mom", ["5551234567"])] "" = [] ∧
    resolveNameToHandlesClaimed [("mom", ["5551234567"])] "" = ["5551234567"] ∧
    (["5551234567"] : List String) ≠ [] :=
  ⟨by decide, by decide, by decide⟩

-- ## Claim theorems for the contact index invariant

theorem mapGet_cons {β : Type} (a : String) (b : β) (rest : List (String × β)) (k : String) :
    mapGet ((a, b) :: rest) k = if a = k then some b else mapGet rest k := by
  by_cases h : a = k
  · rw [if_pos h]
    simp [mapGet, List.find?_cons_of_pos, h]
  · rw [if_neg h]
    rw [mapGet, List.find?_cons_of_neg, ← mapGet]
    simp [h]

theorem mapGet_mapSet {β : Type} (m : List (String × β)) (k k1 : String) (v : β) :
    mapGet (mapSet m k v) k1 = if k1 = k then some v else mapGet m k1 := by
  induction m with
  | nil =>
    rw [mapSet, mapGet_cons]
    by_cases h : k1 = k
    · rw [if_pos h.symm, if_pos h]
    · rw [if_neg (fun hc => h hc.symm), if_neg h]
  | cons p rest ih =>
    obtain ⟨a, b⟩ := p
    rw [mapSet]
    by_cases hak : a = k
    · rw [if_pos (by simp [hak]), mapGet_cons, mapGet_cons]
      by_cases h : k1 = k
      · rw [if_pos (by rw [h]), if_pos h]
      · rw [if_neg (by intro hc; exact h hc.symm), if_neg h,
          if_neg (by rw [hak]; intro hc; exact h hc.symm)]
    · rw [if_neg (by simp [hak]), mapGet_cons, mapGet_cons]
      by_cases hk1 : a = k1
      · rw [if_pos hk1, if_pos hk1, if_neg (by rw [← hk1]; intro hc; exact hak hc)]
      · rw [if_neg hk1, if_neg hk1, ih]

theorem mapGet_mem {β : Type} (m : List (String × β)) (k : String) (v : β)
    (h : mapGet m k = some v) : (k, v) ∈ m := by
  rw [mapGet] at h
  obtain ⟨p, hfind⟩ : ∃ p, m.find? (fun q => q.1 == k) = some p := by
    cases hf : m.find? (fun q => q.1 == k) with
    | none => rw [hf] at h; simp at h
    | some p => exact ⟨p, rfl⟩
  rw [hfind] at h
  have hp := List.find?_some hfind
  have hk : p.1 = k := by simpa using hp
  have hv : p.2 = v := by simpa using h
  have : p = (k, v) := by
    obtain ⟨p1, p2⟩ := p
    simp only at hk hv
    rw [hk, hv]
  exact this ▸ List.mem_of_find?_eq_some hfind

theorem mem_mapSet {β : Type} (m : List (String × β)) (k : String) (v : β)
    (p : String × β) (h : p ∈ mapSet m k v) : p = (k, v) ∨ p ∈ m := by
  induction m with
  | nil =>
    rw [mapSet] at h
    rcases List.mem_cons.mp h with h1 | h1
    · exact Or.inl h1
    · exact absurd h1 (List.not_mem_nil p)
  | cons q rest ih =>
    obtain ⟨a, b⟩ := q
    rw [mapSet] at h
    by_cases hak : a == k
    · rw [if_pos hak] at h
      rcases List.mem_cons.mp h with h1 | h1
      · exact Or.inl h1
      · exact Or.inr (List.mem_cons_of_mem _ h1)
    · rw [if_neg hak] at h
      rcases List.mem_cons.mp h with h1 | h1
      · exact Or.inr (h1 ▸ List.mem_cons_self _ _)
      · rcases ih h1 with h2 | h2
        · exact Or.inl h2
        · exact Or.inr (List.mem_cons_of_mem _ h2)

theorem mem_setAdd (s : List String) (x y : String) (h : y ∈ setAdd s x) :
    y = x ∨ y ∈ s := by
  rw [setAdd] at h
  by_cases hx : x ∈ s
  · rw [if_pos hx] at h
    exact Or.inr h
  · rw [if_neg hx] at h
    rcases List.mem_append.mp h with h1 | h1
    · exact Or.inr h1
    · exact Or.inl (by simpa using h1)

theorem addHandleTo_sound (m : List (String × List String)) (t hid : String)
    (tok hid2 : String) (ids : List String)
    (hmem : (tok, ids) ∈ addHandleTo m t hid) (hin : hid2 ∈ ids) :
    hid2 = hid ∨ ∃ ids0, (tok, ids0) ∈ m ∧ hid2 ∈ ids0 := by
  rw [addHandleTo] at hmem
  rcases mem_mapSet _ _ _ _ hmem with h1 | h1
  · have htok : tok = t := by
      have := congrArg Prod.fst h1
      simpa using this
    have hids : ids = setAdd ((mapGet m t).getD []) hid := by
      have := congrArg Prod.snd h1
      simpa using this
    rw [hids] at hin
    rcases mem_setAdd _ _ _ hin with h2 | h2
    · exact Or.inl h2
    · cases hget : mapGet m t with
      | none => rw [hget] at h2; simp at h2
      | some ids0 =>
        rw [hget] at h2
        simp only [Option.getD_some] at h2
        exact Or.inr ⟨ids0, htok ▸ mapGet_mem m t ids0 hget, h2⟩
  · exact Or.inr ⟨ids, h1, hin⟩

theorem addTokenIf_sound (m : List (String × List String)) (t hid : String)
    (tok hid2 : String) (ids : List String)
    (hmem : (tok, ids) ∈ addTokenIf m t hid) (hin : hid2 ∈ ids) :
    hid2 = hid ∨ ∃ ids0, (tok, ids0) ∈ m ∧ hid2 ∈ ids0 := by
  rw [addTokenIf] at hmem
  by_cases ht : t ≠ ""
  · rw [if_pos ht] at hmem
    exact addHandleTo_sound m t hid tok hid2 ids hmem hin
  · rw [if_neg ht] at hmem
    exact Or.inr ⟨ids, hmem, hin⟩

theorem indexContactName_sound (m : List (String × List String))
    (displayName hid : String) (row : ABRow) (tok hid2 : String) (ids : List String)
    (hmem : (tok, ids) ∈ indexContactName m displayName hid row) (hin : hid2 ∈ ids) :
    hid2 = hid ∨ ∃ ids0, (tok, ids0) ∈ m ∧ hid2 ∈ ids0 := by
  rw [indexContactName] at hmem
  rcases addTokenIf_sound _ _ _ _ _ _ hmem hin with h | ⟨ids3, hm3, hin3⟩
  · exact Or.inl h
  rcases addTokenIf_sound _ _ _ _ _ _ hm3 hin3 with h | ⟨ids2, hm2, hin2⟩
  · exact Or.inl h
  rcases addTokenIf_sound _ _ _ _ _ _ hm2 hin2 with h | ⟨ids1, hm1, hin1⟩
  · exact Or.inl h
  exact addHandleTo_sound _ _ _ _ _ _ hm1 hin1

/-- The invariant: every handle id reachable through any name-token set is
a key of the handle map. -/
def cacheInv (cc : ContactCache) : Prop :=
  ∀ (tok : String) (ids : List String) (hid : String),
    (tok, ids) ∈ cc.nameToHandles → hid ∈ ids →
    ∃ c, mapGet cc.handleToContact hid = some c

theorem cacheInv_insert (htc : List (String × Contact))
    (ntH : List (String × List String)) (d hid : String) (c : Contact) (row : ABRow)
    (hinv : cacheInv ⟨htc, ntH⟩) :
    cacheInv ⟨mapSet htc hid c, indexContactName ntH d hid row⟩ := by
  intro tok ids hid2 hmem hin
  rcases indexContactName_sound ntH d hid row tok hid2 ids hmem hin with h | ⟨ids0, hm0, hin0⟩
  · refine ⟨c, ?_⟩
    rw [mapGet_mapSet, if_pos h]
  · obtain ⟨c0, hc0⟩ := hinv tok ids0 hid2 hm0 hin0
    rw [mapGet_mapSet]
    by_cases hk : hid2 = hid
    · exact ⟨c, if_pos hk ▸ rfl⟩
    · exact ⟨c0, by rw [if_neg hk]; exact hc0⟩

theorem processPhoneRow_inv (acc : ContactCache) (pr : PhoneRow)
    (hinv : cacheInv acc) : cacheInv (processPhoneRow acc pr) := by
  rw [processPhoneRow]
  cases hnorm : normalizePhoneNumber (orEmpty pr.fullNumber) with
  | none => exact hinv
  | some normalized =>
    cases hdisp : buildDisplayName pr.row with
    | none => exact hinv
    | some displayName =>
      exact cacheInv_insert acc.handleToContact acc.nameToHandles displayName normalized
        (mkContact displayName pr.row) pr.row hinv

theorem processEmailRow_inv (acc : ContactCache) (er : EmailRow)
    (hinv : cacheInv acc) : cacheInv (processEmailRow acc er) := by
  rw [processEmailRow]
  by_cases haddr : orEmpty er.address = ""
  · rw [if_pos haddr]
    exact hinv
  · rw [if_neg haddr]
    cases hdisp : buildDisplayName er.row with
    | none => exact hinv
    | some displayName =>
      exact cacheInv_insert acc.handleToContact acc.nameToHandles displayName
        (jsTrim (jsToLower (orEmpty er.address))) (mkContact displayName er.row) er.row hinv

theorem foldl_preserves {α : Type} (f : ContactCache → α → ContactCache)
    (hf : ∀ acc x, cacheInv acc → cacheInv (f acc x)) :
    ∀ (l : List α) (acc : ContactCache), cacheInv acc → cacheInv (List.foldl f acc l) := by
  intro l
  induction l with
  | nil => exact fun acc h => h
  | cons x rest ih =>
    intro acc h
    rw [List.foldl_cons]
    exact ih (f acc x) (hf acc x h)

theorem processSnapshot_inv (acc : ContactCache) (snap : Snapshot)
    (hinv : cacheInv acc) : cacheInv (processSnapshot acc snap) := by
  rw [processSnapshot]
  exact foldl_preserves processEmailRow processEmailRow_inv _ _
    (foldl_preserves processPhoneRow processPhoneRow_inv _ _ hinv)

/-- C9: in any index built from any list of snapshots, every handle id
appearing in any name-token set is a key of handleToContact; and a row
with a display name but no resolvable handle (phone that does not
normalize, or an absent/empty email address) contributes nothing to
either map. -/
theorem C9_index_invariant :
    (∀ (snaps : List Snapshot) (tok : String) (ids : List String) (hid : String),
      (tok, ids) ∈ (buildContactCache snaps).nameToHandles → hid ∈ ids →
      ∃ c, mapGet (buildContactCache snaps).handleToContact hid = some c) ∧
    (∀ (acc : ContactCache) (pr : PhoneRow) (d : String), buildDisplayName pr.row = some d →
      normalizePhoneNumber (orEmpty pr.fullNumber) = none → processPhoneRow acc pr = acc) ∧
    (∀ (acc : ContactCache) (er : EmailRow) (d : String), buildDisplayName er.row = some d →
      orEmpty er.address = "" → processEmailRow acc er = acc) := by
  refine ⟨?_, ?_, ?_⟩
  · intro snaps
    have hempty : cacheInv ⟨[], []⟩ := by
      intro tok ids hid hmem _
      exact absurd hmem (List.not_mem_nil _)
    exact foldl_preserves processSnapshot processSnapshot_inv snaps ⟨[], []⟩ hempty
  · intro acc pr d _ hnorm
    rw [processPhoneRow, hnorm]
  · intro acc er _ _ haddr
    rw [processEmailRow, if_pos haddr]

/-- C9 witness: a one-snapshot build with one phone contact satisfies the
invariant at the indexed token, and the skip cases at concrete rows. -/
theorem C9_index_invariant_witness :
    (∃ c, mapGet (buildContactCache
      [⟨[⟨⟨some "Mom", none, none, none⟩, some "+1 (555) 123-4567"⟩], []⟩]).handleToContact
      "5551234567" = some c) ∧
    processPhoneRow ⟨[], []⟩ ⟨⟨some "Mom", none, none, none⟩, some "12"⟩ = ⟨[], []⟩ := by
  constructor
  · exact C9_index_invariant.1
      [⟨[⟨⟨some "Mom", none, none, none⟩, some "+1 (555) 123-4567"⟩], []⟩]
      "mom" ["5551234567"] "5551234567" (by decide) (by decide)
  · exact C9_index_invariant.2.1 ⟨[], []⟩ ⟨⟨some "Mom", none, none, none⟩, some "12"⟩
      "Mom" (by decide) (by decide)
